import Mathlib

/-!
# rrd: argument encoding and native-call marshalling

A shallow embedding of `rrd.go`, the Go wrapper around the rrdtool C library,
and the properties of its builders (Creator, Updater, Grapher, Exporter).

Conventions of the embedding:

* a Go method with a pointer receiver becomes a function returning the new
  receiver; a method that also talks to the outside world threads that world
  explicitly and returns it next to its result;
* a Go `interface{}` argument becomes a `Value`, one constructor per dynamic
  type the package distinguishes;
* Go's nil slice and empty slice are both the empty list;
* Go's `int64` arithmetic is arithmetic on `Int` followed by `wrap64`;
* Go's `int` arithmetic is arithmetic on `Int` followed by `wrapInt w`, `w`
  being the width of the machine word;
* native memory is a heap of buffers, each counting how often it was released.
-/

namespace Rrd

/-! ## Standard-library types used by the package -/

/-- Go's `strings.Join(elems, sep)`: nothing for no element, the element
itself for one, and otherwise the first element followed by each further
element preceded by `sep`. -/
def strings.Join : List String → String → String
  | [], _ => ""
  | [a], _ => a
  | a :: b :: rest, sep => a ++ sep ++ strings.Join (b :: rest) sep

/-- A `time.Time`, by the two observations the package makes of it:
`Unix()`, its whole seconds since the epoch, and `String()`, the text the
`fmt` verbs print for it. -/
structure Time where
  Unix : Int
  text : String
  deriving DecidableEq, Repr

/-- A `time.Duration`: a count of nanoseconds held in an `int64`, together
with the text its `String()` method gives (what `fmt` prints for it). -/
structure Duration where
  ns : Int
  text : String
  deriving DecidableEq, Repr

/-- The constant `time.Second`, in nanoseconds. -/
def time.Second : Int := 1000000000

/-- Two's-complement wrap-around of a mathematical integer into `int64`. -/
def wrap64 (x : Int) : Int := (x + 2 ^ 63) % 2 ^ 64 - 2 ^ 63

/-- A Go value passed as `interface{}`, by dynamic type. `other` stands for
a value of any further type (a `float64`, a type with its own `String()`
method, ...) and carries the text `fmt.Sprint` gives it: the formatting of
those types belongs to the standard library. -/
inductive Value where
  | time (t : Time)
  | duration (d : Duration)
  | int (i : Int)
  | str (s : String)
  | bool (b : Bool)
  | other (text : String)
  deriving DecidableEq, Repr

/-- Go's `fmt.Sprint(v)` for one operand, which is also what the verb `%v`
prints: integers in base 10, strings verbatim, booleans as `true`/`false`,
and the types with a `String()` method through that method. -/
def fmt.Sprint : Value → String
  | .time t => t.text
  | .duration d => d.text
  | .int i => toString i
  | .str s => s
  | .bool b => if b then "true" else "false"
  | .other text => text

/-- Go's `error` values that the package returns: its own `Error` (a
string holding the native engine's message) and the `*os.PathError` of
a failed exclusive create, which wraps either `EEXIST` (`exist`) or another
cause such as `ENOENT` or `EACCES` (`pathError`, with the cause's text). -/
inductive GoError where
  | rrd (msg : String)
  | exist (path : String)
  | pathError (path cause : String)
  deriving DecidableEq, Repr

/-- Modelled from the spec: `i64toa` is declared in the cgo part of the
package, not in `rrd.go`; the spec has an absolute time rendered as its
integer seconds since the epoch, integers being written in base 10. -/
def i64toa (i : Int) : String := toString i

/-- The body of the loop of `join`: the type switch that gives one
argument its text. -/
def joinArg (a : Value) : String :=
  match a with
  | .time v => i64toa v.Unix
  | v => fmt.Sprint v

/-- `func join(args []interface{}) string` -/
def join (args : List Value) : String :=
  strings.Join (args.map joinArg) ":"

/-! ## Creator -/

/-- `type Creator struct` -/
structure Creator where
  filename : String
  start : Time
  step : Nat
  noOverwrite : Int := 0
  source : List String := []
  template : String := ""
  args : List String := []
  deriving DecidableEq, Repr

/-- `func NewCreator(filename string, start time.Time, step uint) *Creator` -/
def NewCreator (filename : String) (start : Time) (step : Nat) : Creator :=
  { filename := filename, start := start, step := step }

/-- `func (c *Creator) DS(name, compute string, args ...interface{})` -/
def Creator.DS (c : Creator) (name compute : String) (args : List Value) : Creator :=
  { c with args := c.args ++ ["DS:" ++ name ++ ":" ++ compute ++ ":" ++ join args] }

/-- `func (c *Creator) RRA(cf string, args ...interface{})` -/
def Creator.RRA (c : Creator) (cf : String) (args : List Value) : Creator :=
  { c with args := c.args ++ ["RRA:" ++ cf ++ ":" ++ join args] }

/-- `func (c *Creator) SetSource(s ...string)` -/
def Creator.SetSource (c : Creator) (s : List String) : Creator :=
  { c with source := s }

/-- `func (c *Creator) SetTemplate(t ...string)` -/
def Creator.SetTemplate (c : Creator) (t : List String) : Creator :=
  { c with template := strings.Join t ":" }

/-- `func (c *Creator) SetNoOverwite()` -/
def Creator.SetNoOverwite (c : Creator) : Creator :=
  { c with noOverwrite := 1 }

/-! ## The world outside the builders -/

/-- A buffer in native memory: the text copied into it and the number of
times it has been handed to the native `free`. It is live while that number
is zero; a number above one is a double free. -/
structure CBuf where
  text : String
  frees : Nat := 0
  deriving DecidableEq, Repr

/-- A `*cstring`: nil, or the address of a buffer (its index in the heap). -/
abbrev CString := Option Nat

/-- One call of the native `update` entry point, as the engine sees it: the
texts of the filename buffer, of the template buffer when one is held, and of
the sample buffers, in order. -/
structure UpdateCall where
  filename : String
  template : Option String
  samples : List String
  deriving DecidableEq, Repr

/-- Everything outside the builders: the paths present in the filesystem,
the native heap, and the traces of native `update` and `create` calls, each
`create` recorded with the Creator it was issued for. -/
structure World where
  files : List String := []
  heap : List CBuf := []
  updates : List UpdateCall := []
  creates : List Creator := []
  deriving DecidableEq, Repr

/-- The native engine: for each entry point, the diagnostic text it answers
a call with given the world the call is made in, or `none` for status zero. -/
structure Engine where
  update : World → UpdateCall → Option String
  create : World → Creator → Option String

/-- Modelled from the spec: `newCstring` is declared in the cgo part of
the package, not in `rrd.go`; the spec has it build a new owned native buffer
from a text. The new buffer gets the next free address. -/
def newCstring (s : String) (w : World) : CString × World :=
  (some w.heap.length, { w with heap := w.heap ++ [{ text := s }] })

/-- Modelled from the spec: `(*cstring).Free` is declared in the cgo part
of the package, not in `rrd.go`; the spec has it release the buffer, a
never-allocated (nil) buffer being a no-op. Each release of an address is
counted. -/
def cstring.Free (cs : CString) (w : World) : World :=
  match cs with
  | none => w
  | some a => { w with heap := w.heap.modify (fun b => { b with frees := b.frees + 1 }) a }

/-- The text the native side reads through a `*cstring`. -/
def cstring.read (w : World) (cs : CString) : String :=
  match cs with
  | none => ""
  | some a => match w.heap[a]? with
    | some b => b.text
    | none => ""

/-- Modelled from the spec: `(*Creator).create` is declared in the cgo
part of the package, not in `rrd.go`; the spec has it invoke the native
create call once with the Creator's filename, start, step, flags and
directives, and fail with the engine's diagnostic on a non-zero status. -/
def Creator.create (E : Engine) (c : Creator) (w : World) : Option GoError × World :=
  ((E.create w c).map GoError.rrd, { w with creates := w.creates ++ [c] })

/-- `type Updater struct` -/
structure Updater where
  filename : CString
  template : CString := none
  args : List CString := []
  deriving DecidableEq, Repr

/-- `func NewUpdater(filename string) *Updater`. The finalizer it registers
runs `cfree` at a time of the garbage collector's choosing and is not part of
the state. -/
def NewUpdater (filename : String) (w : World) : Updater × World :=
  let (cs, w1) := newCstring filename w
  ({ filename := cs }, w1)

/-- `func cfree(u *Updater)` -/
def cfree (u : Updater) (w : World) : World :=
  let w1 := cstring.Free u.filename w
  let w2 := cstring.Free u.template w1
  u.args.foldl (fun w a => cstring.Free a w) w2

/-- `func (u *Updater) SetTemplate(dsName ...string)` -/
def Updater.SetTemplate (u : Updater) (dsName : List String) (w : World) : Updater × World :=
  let w1 := cstring.Free u.template w
  let (cs, w2) := newCstring (strings.Join dsName ":") w1
  ({ u with template := cs }, w2)

/-- `func (u *Updater) Cache(args ...interface{})` -/
def Updater.Cache (u : Updater) (args : List Value) (w : World) : Updater × World :=
  let (cs, w1) := newCstring (join args) w
  ({ u with args := u.args ++ [cs] }, w1)

/-- The call the native `update` receives for an Updater and a list of
sample buffers. -/
def Updater.call (u : Updater) (args : List CString) (w : World) : UpdateCall :=
  { filename := cstring.read w u.filename
    template := u.template.map fun a => cstring.read w (some a)
    samples := args.map (cstring.read w) }

/-- Modelled from the spec: `(*Updater).update` is declared in the cgo
part of the package, not in `rrd.go`; the spec has it invoke the native
update call once with the filename, the template when one is set and
the given samples in order, and fail with the engine's diagnostic on a
non-zero status. -/
def Updater.update (E : Engine) (u : Updater) (args : List CString) (w : World) :
    Option GoError × World :=
  ((E.update w (u.call args w)).map GoError.rrd,
    { w with updates := w.updates ++ [u.call args w] })

/-- `func (u *Updater) Update(args ...interface{}) error` -/
def Updater.Update (E : Engine) (u : Updater) (args : List Value) (w : World) :
    Option GoError × Updater × World :=
  if args.length ≠ 0 then
    let (cs, w1) := newCstring (join args) w
    let (err, w2) := u.update E [cs] w1
    let w3 := cstring.Free cs w2
    (err, u, w3)
  else if u.args.length ≠ 0 then
    let (err, w1) := u.update E u.args w
    let w2 := u.args.foldl (fun w a => cstring.Free a w) w1
    (err, { u with args := [] }, w2)
  else
    (none, u, w)

/-! ## Grapher -/

/-- A `float64`, by its IEEE 754 binary64 bit pattern. -/
structure Float64 where
  bits : Nat
  deriving DecidableEq, Repr

/-- Go's `math.MaxFloat64`, the largest finite `float64`. -/
def math.MaxFloat64 : Float64 := ⟨0x7FEFFFFFFFFFFFFF⟩

/-- Unary minus on a `float64`: the sign bit is flipped. -/
def Float64.neg (x : Float64) : Float64 :=
  if x.bits < 2 ^ 63 then ⟨x.bits + 2 ^ 63⟩ else ⟨x.bits - 2 ^ 63⟩

/-- A `float32` argument, by its IEEE 754 binary32 bit pattern and the text
the verb `%f` prints for it. -/
structure Float32 where
  bits : Nat
  f : String
  deriving DecidableEq, Repr

/-- `type Grapher struct`. The map of colors, which `NewGrapher` allocates,
is a list of (tag, color) pairs holding each tag at most once. -/
structure Grapher where
  title : String := ""
  vlabel : String := ""
  width : Nat := 0
  height : Nat := 0
  borderWidth : Nat := 0
  upperLimit : Float64 := ⟨0⟩
  lowerLimit : Float64 := ⟨0⟩
  rigid : Bool := false
  altAutoscale : Bool := false
  altAutoscaleMin : Bool := false
  altAutoscaleMax : Bool := false
  noGridFit : Bool := false
  logarithmic : Bool := false
  unitsExponent : Int := 0
  unitsLength : Nat := 0
  rightAxisScale : Float64 := ⟨0⟩
  rightAxisShift : Float64 := ⟨0⟩
  rightAxisLabel : String := ""
  noLegend : Bool := false
  lazy : Bool := false
  colors : List (String × String) := []
  slopeMode : Bool := false
  watermark : String := ""
  base : Nat := 0
  imageFormat : String := ""
  interlaced : Bool := false
  daemon : String := ""
  args : List String := []
  deriving DecidableEq, Repr

/-- The constant `maxUint = ^uint(0)` on a machine word of `w` bits. -/
def maxUint (w : Nat) : Nat := 2 ^ w - 1

/-- The constant `maxInt = int(maxUint >> 1)`. -/
def maxInt (w : Nat) : Int := ((maxUint w >>> 1 : Nat) : Int)

/-- The constant `minInt = -maxInt - 1`. -/
def minInt (w : Nat) : Int := -maxInt w - 1

/-- The constant `defWidth = 2`. -/
def defWidth : Nat := 2

/-- `func NewGrapher() *Grapher`, on a machine word of `w` bits. -/
def NewGrapher (w : Nat) : Grapher :=
  { upperLimit := math.MaxFloat64.neg
    lowerLimit := math.MaxFloat64
    unitsExponent := minInt w
    borderWidth := defWidth
    colors := [] }

/-- `func (g *Grapher) SetTitle(title string)` -/
def Grapher.SetTitle (g : Grapher) (title : String) : Grapher :=
  { g with title := title }

/-- `func (g *Grapher) SetColor(colortag, color string)`: the assignment
`g.colors[colortag] = color`. -/
def Grapher.SetColor (g : Grapher) (colortag color : String) : Grapher :=
  { g with colors := (colortag, color) :: g.colors.filter fun p => p.1 ≠ colortag }

/-- `func (g *Grapher) AddOptions(options ...string)` -/
def Grapher.AddOptions (g : Grapher) (options : List String) : Grapher :=
  { g with args := g.args ++ options }

/-- `func (g *Grapher) push(cmd string, options []string)` -/
def Grapher.push (g : Grapher) (cmd : String) (options : List String) : Grapher :=
  let cmd := if options.length > 0 then cmd ++ ":" ++ strings.Join options ":" else cmd
  { g with args := g.args ++ [cmd] }

/-- `func (g *Grapher) Def(vname, rrdfile, dsname, cf string, options ...string)` -/
def Grapher.Def (g : Grapher) (vname rrdfile dsname cf : String) (options : List String) :
    Grapher :=
  g.push ("DEF:" ++ vname ++ "=" ++ rrdfile ++ ":" ++ dsname ++ ":" ++ cf) options

/-- `func (g *Grapher) VDef(vname, rpn string)` -/
def Grapher.VDef (g : Grapher) (vname rpn : String) : Grapher :=
  g.push ("VDEF:" ++ vname ++ "=" ++ rpn) []

/-- `func (g *Grapher) CDef(vname, rpn string)` -/
def Grapher.CDef (g : Grapher) (vname rpn : String) : Grapher :=
  g.push ("CDEF:" ++ vname ++ "=" ++ rpn) []

/-- `func (g *Grapher) Print(vname, format string)` -/
def Grapher.Print (g : Grapher) (vname format : String) : Grapher :=
  g.push ("PRINT:" ++ vname ++ ":" ++ format) []

/-- `func (g *Grapher) PrintT(vname, format string)` -/
def Grapher.PrintT (g : Grapher) (vname format : String) : Grapher :=
  g.push ("PRINT:" ++ vname ++ ":" ++ format ++ ":strftime") []

/-- `func (g *Grapher) GPrint(vname, format string)` -/
def Grapher.GPrint (g : Grapher) (vname format : String) : Grapher :=
  g.push ("GPRINT:" ++ vname ++ ":" ++ format) []

/-- `func (g *Grapher) GPrintT(vname, format string)` -/
def Grapher.GPrintT (g : Grapher) (vname format : String) : Grapher :=
  g.push ("GPRINT:" ++ vname ++ ":" ++ format ++ ":strftime") []

/-- `func (g *Grapher) Comment(s string)` -/
def Grapher.Comment (g : Grapher) (s : String) : Grapher :=
  g.push ("COMMENT:" ++ s) []

/-- `func (g *Grapher) VRule(t interface{}, color string, options ...string)` -/
def Grapher.VRule (g : Grapher) (t : Value) (color : String) (options : List String) :
    Grapher :=
  let t := match t with
    | .time v => Value.int v.Unix
    | t => t
  let vr := "VRULE:" ++ fmt.Sprint t ++ "#" ++ color
  g.push vr options

/-- `func (g *Grapher) HRule(value, color string, options ...string)` -/
def Grapher.HRule (g : Grapher) (value color : String) (options : List String) : Grapher :=
  let hr := "HRULE:" ++ value ++ "#" ++ color
  g.push hr options

/-- `func (g *Grapher) Line(width float32, value, color string, options ...string)` -/
def Grapher.Line (g : Grapher) (width : Float32) (value color : String)
    (options : List String) : Grapher :=
  let line := "LINE" ++ width.f ++ ":" ++ value
  let line := if color ≠ "" then line ++ "#" ++ color else line
  g.push line options

/-- `func (g *Grapher) Area(value, color string, options ...string)` -/
def Grapher.Area (g : Grapher) (value color : String) (options : List String) : Grapher :=
  let area := "AREA:" ++ value
  let area := if color ≠ "" then area ++ "#" ++ color else area
  g.push area options

/-- `func (g *Grapher) Tick(vname, color string, options ...string)` -/
def Grapher.Tick (g : Grapher) (vname color : String) (options : List String) : Grapher :=
  let tick := "TICK:" ++ vname
  let tick := if color ≠ "" then tick ++ "#" ++ color else tick
  g.push tick options

/-- `func (g *Grapher) Shift(vname string, offset interface{})`. The sum
`v + time.Second/2` is an `int64` sum and wraps; Go's `/` on integers
truncates toward zero. -/
def Grapher.Shift (g : Grapher) (vname : String) (offset : Value) : Grapher :=
  let offset := match offset with
    | .duration v => Value.int (Int.tdiv (wrap64 (v.ns + Int.tdiv time.Second 2)) time.Second)
    | offset => offset
  let shift := "SHIFT:" ++ vname ++ ":" ++ fmt.Sprint offset
  g.push shift []

/-- `func (g *Grapher) TextAlign(align string)` -/
def Grapher.TextAlign (g : Grapher) (align : String) : Grapher :=
  g.push ("TEXTALIGN:" ++ align) []

/-! ## Fetch and export results -/

/-- Two's-complement wrap-around of a mathematical integer into Go's `int`
on a machine word of `w` bits. -/
def wrapInt (w : Nat) (x : Int) : Int := (x + 2 ^ (w - 1)) % 2 ^ w - 2 ^ (w - 1)

/-- Go's index expression `s[i]` for an `int` index: a run-time panic,
here `none`, when the index is negative or not below the length. -/
def index {α : Type} (s : List α) (i : Int) : Option α :=
  if 0 ≤ i then s[i.toNat]? else none

/-- `type FetchResult struct` -/
structure FetchResult where
  Filename : String
  Cf : String
  Start : Time
  End : Time
  Step : Duration
  DsNames : List String
  RowCnt : Int
  values : List Float64
  deriving DecidableEq, Repr

/-- `func (r *FetchResult) ValueAt(dsIndex, rowIndex int) float64`, on a
machine word of `w` bits. -/
def FetchResult.ValueAt (w : Nat) (r : FetchResult) (dsIndex rowIndex : Int) :
    Option Float64 :=
  index r.values (wrapInt w (wrapInt w (r.DsNames.length * rowIndex) + dsIndex))

/-- `type XportResult struct` -/
structure XportResult where
  Start : Time
  End : Time
  Step : Duration
  Legends : List String
  RowCnt : Int
  values : List Float64
  deriving DecidableEq, Repr

/-- `func (r *XportResult) ValueAt(legendIndex, rowIndex int) float64`, on a
machine word of `w` bits. -/
def XportResult.ValueAt (w : Nat) (r : XportResult) (legendIndex rowIndex : Int) :
    Option Float64 :=
  index r.values (wrapInt w (wrapInt w (r.Legends.length * rowIndex) + legendIndex))

/-! ## Exporter -/

/-- `type Exporter struct` -/
structure Exporter where
  maxRows : Nat := 0
  daemon : String := ""
  args : List String := []
  deriving DecidableEq, Repr

/-- `func NewExporter() *Exporter` -/
def NewExporter : Exporter := {}

/-- `func (e *Exporter) SetMaxRows(maxRows uint)` -/
def Exporter.SetMaxRows (e : Exporter) (maxRows : Nat) : Exporter :=
  { e with maxRows := maxRows }

/-- `func (e *Exporter) push(cmd string, options []string)` -/
def Exporter.push (e : Exporter) (cmd : String) (options : List String) : Exporter :=
  let cmd := if options.length > 0 then cmd ++ ":" ++ strings.Join options ":" else cmd
  { e with args := e.args ++ [cmd] }

/-- `func (e *Exporter) Def(vname, rrdfile, dsname, cf string, options ...string)` -/
def Exporter.Def (e : Exporter) (vname rrdfile dsname cf : String) (options : List String) :
    Exporter :=
  e.push ("DEF:" ++ vname ++ "=" ++ rrdfile ++ ":" ++ dsname ++ ":" ++ cf) options

/-- `func (e *Exporter) CDef(vname, rpn string)` -/
def Exporter.CDef (e : Exporter) (vname rpn : String) : Exporter :=
  e.push ("CDEF:" ++ vname ++ "=" ++ rpn) []

/-- `func (e *Exporter) XportDef(vname, label string)` -/
def Exporter.XportDef (e : Exporter) (vname label : String) : Exporter :=
  e.push ("XPORT:" ++ vname ++ ":" ++ label) []

/-- `func (e *Exporter) SetDaemon(daemon string)` -/
def Exporter.SetDaemon (e : Exporter) (daemon : String) : Exporter :=
  { e with daemon := daemon }

/-! ## Directive-append calls

One constructor per method that appends a directive, with the arguments of
the call, and the method each one runs. -/

/-- A directive-append call on a Creator. -/
inductive CreatorOp where
  | DS (name compute : String) (args : List Value)
  | RRA (cf : String) (args : List Value)

/-- The method a Creator call runs. -/
def CreatorOp.run : CreatorOp → Creator → Creator
  | .DS name compute args, c => c.DS name compute args
  | .RRA cf args, c => c.RRA cf args

/-- A directive-append call on a Grapher. -/
inductive GrapherOp where
  | Def (vname rrdfile dsname cf : String) (options : List String)
  | VDef (vname rpn : String)
  | CDef (vname rpn : String)
  | Print (vname format : String)
  | PrintT (vname format : String)
  | GPrint (vname format : String)
  | GPrintT (vname format : String)
  | Comment (s : String)
  | VRule (t : Value) (color : String) (options : List String)
  | HRule (value color : String) (options : List String)
  | Line (width : Float32) (value color : String) (options : List String)
  | Area (value color : String) (options : List String)
  | Tick (vname color : String) (options : List String)
  | Shift (vname : String) (offset : Value)
  | TextAlign (align : String)

/-- The method a Grapher call runs. -/
def GrapherOp.run : GrapherOp → Grapher → Grapher
  | .Def vname rrdfile dsname cf options, g => g.Def vname rrdfile dsname cf options
  | .VDef vname rpn, g => g.VDef vname rpn
  | .CDef vname rpn, g => g.CDef vname rpn
  | .Print vname format, g => g.Print vname format
  | .PrintT vname format, g => g.PrintT vname format
  | .GPrint vname format, g => g.GPrint vname format
  | .GPrintT vname format, g => g.GPrintT vname format
  | .Comment s, g => g.Comment s
  | .VRule t color options, g => g.VRule t color options
  | .HRule value color options, g => g.HRule value color options
  | .Line width value color options, g => g.Line width value color options
  | .Area value color options, g => g.Area value color options
  | .Tick vname color options, g => g.Tick vname color options
  | .Shift vname offset, g => g.Shift vname offset
  | .TextAlign align, g => g.TextAlign align

/-- A directive-append call on an Exporter. -/
inductive ExporterOp where
  | Def (vname rrdfile dsname cf : String) (options : List String)
  | CDef (vname rpn : String)
  | XportDef (vname label : String)

/-- The method an Exporter call runs. -/
def ExporterOp.run : ExporterOp → Exporter → Exporter
  | .Def vname rrdfile dsname cf options, e => e.Def vname rrdfile dsname cf options
  | .CDef vname rpn, e => e.CDef vname rpn
  | .XportDef vname label, e => e.XportDef vname label

/-- Number of occurrences of the delimiter `:` in a string. -/
def colons (s : String) : Nat := s.data.count ':'

/-! ## Concrete inputs for the examples -/

/-- An engine that accepts every call. -/
def exEngineOk : Engine := ⟨fun _ _ => none, fun _ _ => none⟩

/-- An engine that rejects every call. -/
def exEngineFail : Engine :=
  ⟨fun _ _ => some "illegal attempt to update", fun _ _ => some "creating failed"⟩

/-- A world holding the file `old.rrd` and one live buffer, `db.rrd`. -/
def exWorld : World := { files := ["old.rrd"], heap := [{ text := "db.rrd" }] }

/-- An idle Updater whose filename is the buffer of `exWorld`. -/
def exUpdater : Updater := { filename := some 0 }

/-- Midnight UTC of the first day of 2024. -/
def exTime : Time := ⟨1704067200, "2024-01-01 00:00:00 +0000 UTC"⟩

/-- The `float64` values 0, 1, 2, 3, 4, 5. -/
def exValues : List Float64 :=
  [⟨0x0000000000000000⟩, ⟨0x3FF0000000000000⟩, ⟨0x4000000000000000⟩,
   ⟨0x4008000000000000⟩, ⟨0x4010000000000000⟩, ⟨0x4014000000000000⟩]

/-- A fetch result of 2 columns and 3 rows holding `exValues`. -/
def exFetch : FetchResult :=
  { Filename := "db.rrd", Cf := "AVERAGE", Start := exTime, End := exTime
    Step := ⟨300000000000, "5m0s"⟩, DsNames := ["in", "out"], RowCnt := 3
    values := exValues }

/-- An export result of 2 columns and 3 rows holding `exValues`. -/
def exXport : XportResult :=
  { Start := exTime, End := exTime, Step := ⟨300000000000, "5m0s"⟩
    Legends := ["in", "out"], RowCnt := 3, values := exValues }

/-! ## Vocabulary of the properties of options, limits and shared directives -/

/-- The text form of a value in the spec's words, stated apart from `join`:
an absolute time is its whole seconds since the epoch in base 10, an integer
is written in base 10, a string is itself, a boolean is `true` or `false`,
and a value of a type that formats itself is the text that type gives. -/
def textForm : Value → String
  | .time t => toString t.Unix
  | .duration d => d.text
  | .int i => toString i
  | .str s => s
  | .bool true => "true"
  | .bool false => "false"
  | .other text => text

/-- Every option preceded by a `:`, in order. -/
def optionSuffix : List String → String
  | [] => ""
  | o :: rest => ":" ++ o ++ optionSuffix rest

/-- The read `g.colors[colortag]` of the map of colors. -/
def Grapher.color (g : Grapher) (colortag : String) : Option String :=
  g.colors.lookup colortag

/-- Go's `math.Inf(sign)`: positive infinity for `sign >= 0`, negative
infinity otherwise. -/
def math.Inf (sign : Int) : Float64 :=
  if 0 ≤ sign then ⟨0x7FF0000000000000⟩ else ⟨0xFFF0000000000000⟩

/-- Whether a `float64` compares equal to zero: the patterns of +0 and -0. -/
def Float64.isZero (x : Float64) : Bool :=
  x.bits == 0 || x.bits == 2 ^ 63

/-- A call of one of the two directive methods that Grapher and Exporter
both have. -/
inductive SharedOp where
  | Def (vname rrdfile dsname cf : String) (options : List String)
  | CDef (vname rpn : String)

/-- The Grapher method a shared call runs. -/
def SharedOp.onGrapher : SharedOp → Grapher → Grapher
  | .Def vname rrdfile dsname cf options, g => g.Def vname rrdfile dsname cf options
  | .CDef vname rpn, g => g.CDef vname rpn

/-- The Exporter method a shared call runs. -/
def SharedOp.onExporter : SharedOp → Exporter → Exporter
  | .Def vname rrdfile dsname cf options, e => e.Def vname rrdfile dsname cf options
  | .CDef vname rpn, e => e.CDef vname rpn

/-! ## Lifetimes of the Updater's buffers -/

/-- How many times the buffer at an address has been released; zero at an
address where nothing is allocated. -/
def freesAt (w : World) (a : Nat) : Nat :=
  match w.heap[a]? with
  | some b => b.frees
  | none => 0

/-- Whether a `*cstring` points to an allocated buffer that has not been
released. -/
def isLive (w : World) (cs : CString) : Bool :=
  match cs with
  | none => false
  | some a => decide (a < w.heap.length) && freesAt w a == 0

/-- The state of an Updater's buffers that every operation keeps: the
filename buffer is live, the template is nil or live, every pending sample is
live, no buffer is referenced twice, and no buffer at all has been released
more than once. -/
structure BuffersOk (u : Updater) (w : World) : Prop where
  filename : isLive w u.filename = true
  template : u.template = none ∨ isLive w u.template = true
  args : ∀ cs ∈ u.args, isLive w cs = true
  nodup : u.args.Nodup
  filename_args : u.filename ∉ u.args
  template_args : u.template ∉ u.args
  template_filename : u.template ≠ u.filename
  once : ∀ a, freesAt w a ≤ 1

/-- A call of one of the Updater's methods after `NewUpdater`; `Update`
with no argument is the flush. -/
inductive UpdaterOp where
  | SetTemplate (dsName : List String)
  | Cache (args : List Value)
  | Update (args : List Value)

/-- The method an Updater call runs, the error of `Update` dropped. -/
def UpdaterOp.run (E : Engine) : UpdaterOp → Updater × World → Updater × World
  | .SetTemplate dsName, s => s.1.SetTemplate dsName s.2
  | .Cache args, s => s.1.Cache args s.2
  | .Update args, s => (s.1.Update E args s.2).2

/-- `NewUpdater` followed by a sequence of calls. -/
def runUpdater (E : Engine) (filename : String) (ops : List UpdaterOp) (w : World) :
    Updater × World :=
  ops.foldl (fun s op => op.run E s) (NewUpdater filename w)

/-! ## Properties -/

theorem colons_append (a b : String) : colons (a ++ b) = colons a + colons b := by
  simp [colons, String.data_append, List.count_append]

theorem colons_Join (l : List String) (hne : l ≠ [])
    (hclean : ∀ s ∈ l, colons s = 0) :
    colons (strings.Join l ":") = l.length - 1 := by
  induction l with
  | nil => exact absurd rfl hne
  | cons a rest ih =>
    cases rest with
    | nil => simpa [strings.Join] using hclean a (by simp)
    | cons b rest =>
      have hrest := ih (by simp) (fun s hs => hclean s (List.mem_cons_of_mem _ hs))
      have ha := hclean a (by simp)
      have hsep : colons ":" = 1 := by decide
      simp only [strings.Join, colons_append, ha, hsep, hrest, List.length_cons]
      omega

theorem suffix_Join (o : String) (rest : List String) :
    ":" ++ strings.Join (o :: rest) ":" = optionSuffix (o :: rest) := by
  induction rest generalizing o with
  | nil => simp [strings.Join, optionSuffix]
  | cons b rest ih =>
    have h := ih b
    simp only [strings.Join, optionSuffix, String.append_assoc] at h ⊢
    rw [h]

theorem intercalate_go (acc : String) (l : List String) :
    String.intercalate.go acc ":" l = acc ++ optionSuffix l := by
  induction l generalizing acc with
  | nil => simp [String.intercalate.go, optionSuffix]
  | cons a rest ih =>
    simp only [String.intercalate.go, ih, optionSuffix, String.append_assoc]

theorem Join_intercalate (l : List String) :
    strings.Join l ":" = String.intercalate ":" l := by
  cases l with
  | nil => rfl
  | cons a rest =>
    cases rest with
    | nil => simp [strings.Join, String.intercalate, String.intercalate.go]
    | cons b rest =>
      simp only [String.intercalate, intercalate_go]
      simp only [strings.Join, String.append_assoc]
      rw [← suffix_Join b rest]

theorem joinArg_textForm (a : Value) : joinArg a = textForm a := by
  cases a with
  | bool b => cases b <;> rfl
  | _ => rfl

/-- C1: `join` renders a list as the text forms of its elements, in order,
separated by `:`; `join` of no value is the empty string, `join` of one value
is exactly that value's text form, each further value adds `:` and its text
form after what came before, and `join` of `N ≥ 1` values whose text forms
hold no `:` holds exactly `N - 1` of them. -/
theorem join_delimiter_count (x : Value) (args : List Value) (hne : args ≠ [])
    (hclean : ∀ a ∈ args, colons (textForm a) = 0) :
    join [] = "" ∧
    join [x] = textForm x ∧
    (∀ (a b : Value) (rest : List Value),
      join (a :: b :: rest) = textForm a ++ ":" ++ join (b :: rest)) ∧
    join args = String.intercalate ":" (args.map textForm) ∧
    colons (join args) = args.length - 1 ∧
    join [Value.int 600, Value.str "U", Value.other "0.5", Value.bool true,
        Value.time ⟨1700000000, "2023-11-14 22:13:20 +0000 UTC"⟩]
      = "600:U:0.5:true:1700000000" := by
  have hmap : ∀ l : List Value, l.map joinArg = l.map textForm := fun l =>
    List.map_congr_left fun a _ => joinArg_textForm a
  refine ⟨rfl, joinArg_textForm x, ?_, ?_, ?_, by decide⟩
  · intro a b rest
    simp only [join, List.map_cons, strings.Join, joinArg_textForm]
  · simp only [join, hmap, Join_intercalate]
  · have h := colons_Join (args.map textForm) (by simpa using hne)
      (by
        intro s hs
        obtain ⟨a, ha, rfl⟩ := List.mem_map.mp hs
        exact hclean a ha)
    simpa [join, hmap] using h

/-- Three values, an integer, a string and a time, none of whose text forms
holds a `:`, give the three texts in order and two delimiters. -/
theorem join_delimiter_count_witness :
    (∀ a ∈ [Value.int 600, Value.str "U",
        Value.time ⟨1700000000, "2023-11-14 22:13:20 +0000 UTC"⟩], colons (textForm a) = 0) ∧
    join [Value.other "0.5"] = "0.5" ∧
    join [Value.int 600, Value.str "U", Value.time ⟨1700000000, "2023-11-14 22:13:20 +0000 UTC"⟩]
      = String.intercalate ":" ["600", "U", "1700000000"] ∧
    colons (join [Value.int 600, Value.str "U",
        Value.time ⟨1700000000, "2023-11-14 22:13:20 +0000 UTC"⟩]) = 3 - 1 :=
  have h := join_delimiter_count (Value.other "0.5")
    [Value.int 600, Value.str "U", Value.time ⟨1700000000, "2023-11-14 22:13:20 +0000 UTC"⟩]
    (by decide) (by decide)
  ⟨by decide, h.2.1, h.2.2.2.1, h.2.2.2.2.1⟩

/-- C2: `join` gives every absolute time the base-10 text of its whole
seconds since the epoch and every other value its default text, integers in
base 10 and strings verbatim; `join` of one time alone is that text, also for
a time before the epoch. -/
theorem join_time_as_epoch_seconds (args : List Value) (t : Time) (i : Int) (s : String) :
    join args = strings.Join (args.map fun a =>
      match a with
      | .time v => toString v.Unix
      | v => fmt.Sprint v) ":" ∧
    join [Value.time t] = toString t.Unix ∧
    join [Value.int i] = toString i ∧
    join [Value.str s] = s ∧
    join [Value.time ⟨-86400, "1969-12-31 00:00:00 +0000 UTC"⟩] = "-86400" ∧
    join [Value.time ⟨1700000000, "2023-11-14 22:13:20 +0000 UTC"⟩, Value.int (-7), Value.str "U"]
      = "1700000000:-7:U" := by
  refine ⟨?_, rfl, rfl, rfl, by decide, by decide⟩
  unfold join
  congr 1

/-- C3: `DS` appends exactly `DS:name:compute:join(params)` and `RRA`
appends exactly `RRA:cf:join(params)`, nothing else of the Creator changing;
on a new Creator, `DS("temp","GAUGE",600,"U","U")` then
`RRA("AVERAGE",0.5,1,288)` leave the two directives of the example. -/
theorem creator_DS_RRA_append (c : Creator) (name compute cf : String) (params : List Value)
    (filename : String) (start : Time) (step : Nat) :
    c.DS name compute params
      = { c with args := c.args ++ ["DS:" ++ name ++ ":" ++ compute ++ ":" ++ join params] } ∧
    c.RRA cf params = { c with args := c.args ++ ["RRA:" ++ cf ++ ":" ++ join params] } ∧
    (((NewCreator filename start step).DS "temp" "GAUGE"
        [Value.int 600, Value.str "U", Value.str "U"]).RRA "AVERAGE"
        [Value.other "0.5", Value.int 1, Value.int 288]).args
      = ["DS:temp:GAUGE:600:U:U", "RRA:AVERAGE:0.5:1:288"] := by
  refine ⟨rfl, rfl, ?_⟩
  simp only [NewCreator, Creator.DS, Creator.RRA, List.nil_append, List.cons_append]
  decide

/-- C4: every directive-append call of a Creator, a Grapher or an Exporter
leaves the directive list it found, unchanged, followed by exactly one new
element, which depends on the call alone; so a call followed by a second one
leaves the first call's directive right before the second's. -/
theorem directive_order_preserved :
    (∀ op1 op2 : CreatorOp, ∃ d1 d2 : String, ∀ c : Creator,
      (op1.run c).args = c.args ++ [d1] ∧ (op2.run c).args = c.args ++ [d2] ∧
      (op2.run (op1.run c)).args = c.args ++ [d1, d2]) ∧
    (∀ op1 op2 : GrapherOp, ∃ d1 d2 : String, ∀ g : Grapher,
      (op1.run g).args = g.args ++ [d1] ∧ (op2.run g).args = g.args ++ [d2] ∧
      (op2.run (op1.run g)).args = g.args ++ [d1, d2]) ∧
    (∀ op1 op2 : ExporterOp, ∃ d1 d2 : String, ∀ e : Exporter,
      (op1.run e).args = e.args ++ [d1] ∧ (op2.run e).args = e.args ++ [d2] ∧
      (op2.run (op1.run e)).args = e.args ++ [d1, d2]) := by
  have hc : ∀ op : CreatorOp, ∃ d : String, ∀ c : Creator, (op.run c).args = c.args ++ [d] := by
    intro op
    cases op <;> exact ⟨_, fun _ => rfl⟩
  have hg : ∀ op : GrapherOp, ∃ d : String, ∀ g : Grapher, (op.run g).args = g.args ++ [d] := by
    intro op
    cases op <;> exact ⟨_, fun _ => rfl⟩
  have he : ∀ op : ExporterOp, ∃ d : String, ∀ e : Exporter, (op.run e).args = e.args ++ [d] := by
    intro op
    cases op <;> exact ⟨_, fun _ => rfl⟩
  refine ⟨?_, ?_, ?_⟩
  · intro op1 op2
    obtain ⟨d1, h1⟩ := hc op1
    obtain ⟨d2, h2⟩ := hc op2
    exact ⟨d1, d2, fun c => ⟨h1 c, h2 c, by rw [h2, h1, List.append_assoc]; rfl⟩⟩
  · intro op1 op2
    obtain ⟨d1, h1⟩ := hg op1
    obtain ⟨d2, h2⟩ := hg op2
    exact ⟨d1, d2, fun g => ⟨h1 g, h2 g, by rw [h2, h1, List.append_assoc]; rfl⟩⟩
  · intro op1 op2
    obtain ⟨d1, h1⟩ := he op1
    obtain ⟨d2, h2⟩ := he op2
    exact ⟨d1, d2, fun e => ⟨h1 e, h2 e, by rw [h2, h1, List.append_assoc]; rfl⟩⟩

theorem modify_length_append {α : Type} (f : α → α) (l : List α) (b : α) :
    List.modify f l.length (l ++ [b]) = l ++ [f b] := by
  induction l with
  | nil => rfl
  | cons a l ih => simpa [List.modify, List.modifyTailIdx] using ih

/-- C5: on an Updater with nothing pending, `Cache(a); Cache(b); Update()`
adds exactly one call to the trace of native updates, with the samples
`join(a)`, `join(b)` in that order; a further `Update()` adds no call and
returns no error. -/
theorem cache_cache_update (E : Engine) (u : Updater) (w : World) (a b : List Value)
    (hidle : u.args = []) :
    let s1 := u.Cache a w
    let s2 := s1.1.Cache b s1.2
    let r3 := s2.1.Update E [] s2.2
    let r4 := r3.2.1.Update E [] r3.2.2
    r3.2.2.updates = w.updates ++
      [{ filename := cstring.read s2.2 u.filename
         template := u.template.map fun t => cstring.read s2.2 (some t)
         samples := [join a, join b] }] ∧
    r4.2.2.updates = r3.2.2.updates ∧ r4.1 = none := by
  simp [Updater.Cache, Updater.Update, Updater.update, Updater.call, newCstring, hidle,
    cstring.read, cstring.Free]
  constructor <;> simp [List.getElem_append_right]

/-- Two samples cached on the idle `exUpdater` and flushed through the
accepting engine. -/
theorem cache_cache_update_witness :
    exUpdater.args = [] ∧
    (let s1 := exUpdater.Cache [Value.time exTime, Value.int 1] exWorld
     let s2 := s1.1.Cache [Value.str "N", Value.int 2] s1.2
     let r3 := s2.1.Update exEngineOk [] s2.2
     let r4 := r3.2.1.Update exEngineOk [] r3.2.2
     r3.2.2.updates = exWorld.updates ++
       [{ filename := cstring.read s2.2 exUpdater.filename
          template := exUpdater.template.map fun t => cstring.read s2.2 (some t)
          samples := [join [Value.time exTime, Value.int 1], join [Value.str "N", Value.int 2]] }] ∧
     r4.2.2.updates = r3.2.2.updates ∧ r4.1 = none) :=
  ⟨rfl, cache_cache_update exEngineOk exUpdater exWorld
    [Value.time exTime, Value.int 1] [Value.str "N", Value.int 2] rfl⟩

/-- C6: `Update(x...)` with at least one argument adds exactly one call to
the trace of native updates, with the single sample `join(x)`, returns what
the engine answers to that call, and leaves the Updater (pending samples,
filename, template) as it was; of the world only the trace and the heap
change, the heap by the temporary buffer, released once. -/
theorem update_immediate (E : Engine) (u : Updater) (w : World) (x : List Value)
    (hx : x ≠ []) :
    let w1 := (newCstring (join x) w).2
    let call : UpdateCall :=
      { filename := cstring.read w1 u.filename
        template := u.template.map fun t => cstring.read w1 (some t)
        samples := [join x] }
    let r := u.Update E x w
    r.1 = (E.update w1 call).map GoError.rrd ∧
    r.2.1 = u ∧
    r.2.2 = { w with updates := w.updates ++ [call]
                     heap := w.heap ++ [{ text := join x, frees := 1 }] } := by
  have hlen : x.length ≠ 0 := fun h => hx (List.length_eq_zero.mp h)
  simp [Updater.Update, Updater.update, Updater.call, newCstring, hlen, cstring.read,
    cstring.Free, modify_length_append]

/-- One sample written at once, through the rejecting engine, by an Updater
that holds a pending sample. -/
theorem update_immediate_witness :
    [Value.time exTime, Value.int 3] ≠ [] ∧
    (let u := (exUpdater.Cache [Value.int 9] exWorld).1
     let w := (exUpdater.Cache [Value.int 9] exWorld).2
     let x := [Value.time exTime, Value.int 3]
     let w1 := (newCstring (join x) w).2
     let call : UpdateCall :=
       { filename := cstring.read w1 u.filename
         template := u.template.map fun t => cstring.read w1 (some t)
         samples := [join x] }
     let r := u.Update exEngineFail x w
     r.1 = (exEngineFail.update w1 call).map GoError.rrd ∧
     r.2.1 = u ∧
     r.2.2 = { w with updates := w.updates ++ [call]
                      heap := w.heap ++ [{ text := join x, frees := 1 }] }) :=
  ⟨by decide, update_immediate exEngineFail (exUpdater.Cache [Value.int 9] exWorld).1
    (exUpdater.Cache [Value.int 9] exWorld).2 [Value.time exTime, Value.int 3] (by decide)⟩

/-- C7: with samples pending, `Update()` returns exactly what the engine
answers to the one call it issues and leaves the pending list empty, whatever
that answer is, failure included; `Cache` adds no call to the trace. -/
theorem update_flush_clears (E : Engine) (u : Updater) (w : World)
    (hpending : u.args ≠ []) :
    (u.Update E [] w).1 = (E.update w (u.call u.args w)).map GoError.rrd ∧
    (u.Update E [] w).2.2.updates = w.updates ++ [u.call u.args w] ∧
    (u.Update E [] w).2.1.args = [] ∧
    ∀ (v : Updater) (a : List Value) (w0 : World), (v.Cache a w0).2.updates = w0.updates := by
  have hlen : u.args.length ≠ 0 := fun h => hpending (List.length_eq_zero.mp h)
  have hupd : ∀ (l : List CString) (w0 : World),
      (l.foldl (fun w c => cstring.Free c w) w0).updates = w0.updates := by
    intro l
    induction l with
    | nil => intro w0; rfl
    | cons c l ih =>
      intro w0
      rw [List.foldl_cons, ih]
      cases c <;> rfl
  refine ⟨?_, ?_, ?_, fun _ _ _ => rfl⟩
  · simp [Updater.Update, Updater.update, hlen]
  · simp [Updater.Update, Updater.update, hlen, hupd]
  · simp [Updater.Update, hlen]

/-- A flush of one pending sample that the engine rejects. -/
theorem update_flush_clears_witness :
    (exUpdater.Cache [Value.int 9] exWorld).1.args ≠ [] ∧
    ((exUpdater.Cache [Value.int 9] exWorld).1.Update exEngineFail []
        (exUpdater.Cache [Value.int 9] exWorld).2).1
      = some (GoError.rrd "illegal attempt to update") ∧
    ((exUpdater.Cache [Value.int 9] exWorld).1.Update exEngineFail []
        (exUpdater.Cache [Value.int 9] exWorld).2).2.1.args = [] :=
  have h := update_flush_clears exEngineFail (exUpdater.Cache [Value.int 9] exWorld).1
    (exUpdater.Cache [Value.int 9] exWorld).2 (by decide)
  ⟨by decide, h.1, h.2.2.1⟩

theorem wrapInt_of_mem (w : Nat) (hw : 0 < w) (x : Int) (h0 : 0 ≤ x)
    (h1 : x < 2 ^ (w - 1)) : wrapInt w x = x := by
  have hpow : (2 : Int) ^ w = 2 * 2 ^ (w - 1) := by
    obtain ⟨k, rfl⟩ : ∃ k, w = k + 1 := ⟨w - 1, by omega⟩
    simp [pow_succ, mul_comm]
  unfold wrapInt
  rw [hpow, Int.emod_eq_of_lt (by omega) (by omega)]
  omega

theorem wrapInt_add (w : Nat) (hw : 0 < w) (a b : Int) :
    wrapInt w (wrapInt w a + b) = wrapInt w (a + b) := by
  have hpow : (2 : Int) ^ w = 2 * 2 ^ (w - 1) := by
    obtain ⟨k, rfl⟩ : ∃ k, w = k + 1 := ⟨w - 1, by omega⟩
    simp [pow_succ, mul_comm]
  unfold wrapInt
  have h : ((a + 2 ^ (w - 1)) % 2 ^ w - 2 ^ (w - 1) + b + 2 ^ (w - 1)) % 2 ^ w
      = (a + b + 2 ^ (w - 1)) % 2 ^ w := by
    have e1 : (a + 2 ^ (w - 1)) % 2 ^ w - 2 ^ (w - 1) + b + 2 ^ (w - 1)
        = (a + 2 ^ (w - 1)) % 2 ^ w + b := by ring
    have e2 : a + b + 2 ^ (w - 1) = a + 2 ^ (w - 1) + b := by ring
    rw [e1, e2, Int.emod_add_emod]
  rw [h]

theorem index_row_major {α : Type} (w : Nat) (hw : 0 < w) (values : List α) (n : Nat)
    (col row : Int) (h0 : 0 ≤ n * row + col) (h1 : n * row + col < 2 ^ (w - 1)) :
    index values (wrapInt w (wrapInt w (n * row) + col))
      = values[(n * row + col).toNat]? := by
  rw [wrapInt_add w hw, wrapInt_of_mem w hw _ h0 h1]
  simp [index, h0]

/-- C8: `ValueAt(col, row)` of a FetchResult and of an XportResult is the
element of the flat value buffer at index `row*columns + col`, `columns`
being the number of column names, whenever that index is not negative and
fits the machine `int`; on 2 columns and 3 rows holding 0..5, `ValueAt(1,2)`
is 5. -/
theorem ValueAt_row_major (w : Nat) (r : FetchResult) (x : XportResult) (col row : Int)
    (hw : 0 < w)
    (hr0 : 0 ≤ r.DsNames.length * row + col)
    (hr1 : r.DsNames.length * row + col < 2 ^ (w - 1))
    (hx0 : 0 ≤ x.Legends.length * row + col)
    (hx1 : x.Legends.length * row + col < 2 ^ (w - 1)) :
    r.ValueAt w col row = r.values[(r.DsNames.length * row + col).toNat]? ∧
    x.ValueAt w col row = x.values[(x.Legends.length * row + col).toNat]? ∧
    exFetch.ValueAt 64 1 2 = some ⟨0x4014000000000000⟩ ∧
    exXport.ValueAt 64 1 2 = some ⟨0x4014000000000000⟩ :=
  ⟨index_row_major w hw r.values _ col row hr0 hr1,
   index_row_major w hw x.values _ col row hx0 hx1, by decide, by decide⟩

/-- The cell of column 1, row 2 of the 2-column examples on a 32-bit word:
the index is 5. -/
theorem ValueAt_row_major_witness :
    exFetch.ValueAt 32 1 2 = exFetch.values[5]? ∧
    exXport.ValueAt 32 1 2 = exXport.values[5]? :=
  have h := ValueAt_row_major 32 exFetch exXport 1 2 (by decide) (by decide) (by decide)
    (by decide) (by decide)
  ⟨h.1, h.2.1⟩

theorem wrap64_of_mem (x : Int) (h0 : 0 ≤ x) (h1 : x < 2 ^ 63) : wrap64 x = x := by
  unfold wrap64
  rw [Int.emod_eq_of_lt (by omega) (by omega)]
  omega

/-- What `Shift` does get right: a duration that is not negative and whose
sum with half a second fits an `int64` is appended as its whole seconds
rounded to nearest, a half rounding up. -/
theorem Shift_nonneg_duration (g : Grapher) (vname : String) (d : Duration)
    (h0 : 0 ≤ d.ns) (h1 : d.ns + 500000000 < 2 ^ 63) :
    (g.Shift vname (Value.duration d)).args
      = g.args ++ ["SHIFT:" ++ vname ++ ":" ++ toString ((d.ns + 500000000) / 1000000000)] := by
  have hhalf : Int.tdiv time.Second 2 = 500000000 := by decide
  have hsec : time.Second = 1000000000 := rfl
  simp only [Grapher.Shift, Grapher.push, fmt.Sprint, hhalf]
  rw [wrap64_of_mem _ (by omega) h1, hsec, Int.tdiv_eq_ediv (by omega) (by omega)]
  simp

/-- C10 fails on the code for negative durations: `Shift` adds half a second
and then divides with truncation toward zero, so a shift of exactly -2 s is
appended as `-1` where the nearest whole number of seconds is -2, one of -1 s
as `0`, one of a week back as `-604799`, and the largest duration, whose sum
with half a second wraps, as a negative number of seconds. -/
theorem Shift_negative_duration (g : Grapher) (vname : String) :
    (g.Shift vname (Value.duration ⟨-2000000000, "-2s"⟩)).args
      = g.args ++ ["SHIFT:" ++ vname ++ ":" ++ "-1"] ∧
    (g.Shift vname (Value.duration ⟨-1000000000, "-1s"⟩)).args
      = g.args ++ ["SHIFT:" ++ vname ++ ":" ++ "0"] ∧
    (g.Shift vname (Value.duration ⟨-604800000000000, "-168h0m0s"⟩)).args
      = g.args ++ ["SHIFT:" ++ vname ++ ":" ++ "-604799"] ∧
    (g.Shift vname (Value.duration ⟨9223372036854775807, "2562047h47m16.854775807s"⟩)).args
      = g.args ++ ["SHIFT:" ++ vname ++ ":" ++ "-9223372036"] := by
  have e1 : toString (Int.tdiv (wrap64 (-2000000000 + Int.tdiv time.Second 2)) time.Second)
      = "-1" := by decide
  have e2 : toString (Int.tdiv (wrap64 (-1000000000 + Int.tdiv time.Second 2)) time.Second)
      = "0" := by decide
  have e3 : toString (Int.tdiv (wrap64 (-604800000000000 + Int.tdiv time.Second 2)) time.Second)
      = "-604799" := by decide
  have e4 : toString (Int.tdiv (wrap64 (9223372036854775807 + Int.tdiv time.Second 2))
      time.Second) = "-9223372036" := by decide
  simp only [Grapher.Shift, Grapher.push, fmt.Sprint, e1, e2, e3, e4]
  simp

theorem push_suffix (g : Grapher) (cmd : String) (options : List String) :
    (g.push cmd options).args = g.args ++ [cmd ++ optionSuffix options] := by
  cases options with
  | nil => simp [Grapher.push, optionSuffix]
  | cons o rest =>
    simp only [Grapher.push, List.length_cons, gt_iff_lt, Nat.zero_lt_succ, if_true,
      String.append_assoc, suffix_Join]

/-- C11: `VRule` appends `VRULE:` + T + `#` + color followed by every option
preceded by `:`, where T is the base-10 text of the epoch seconds of an
absolute time and is a string argument verbatim. -/
theorem VRule_time_or_text (g : Grapher) (t : Time) (s color : String)
    (options : List String) :
    (g.VRule (Value.time t) color options).args
      = g.args ++ ["VRULE:" ++ toString t.Unix ++ "#" ++ color ++ optionSuffix options] ∧
    (g.VRule (Value.str s) color options).args
      = g.args ++ ["VRULE:" ++ s ++ "#" ++ color ++ optionSuffix options] ∧
    (g.VRule (Value.time exTime) "FF0000" ["dashes", "dash-offset=2"]).args
      = g.args ++ ["VRULE:1704067200#FF0000:dashes:dash-offset=2"] ∧
    (g.VRule (Value.str "end-1d") "FF0000" []).args = g.args ++ ["VRULE:end-1d#FF0000"] := by
  have e : toString exTime.Unix = "1704067200" := by decide
  refine ⟨?_, ?_, ?_, ?_⟩
  · simp only [Grapher.VRule, push_suffix, fmt.Sprint]
  · simp only [Grapher.VRule, push_suffix, fmt.Sprint]
  · simp only [Grapher.VRule, push_suffix, fmt.Sprint, e]
    congr 2
  · simp only [Grapher.VRule, push_suffix, fmt.Sprint]
    congr 2

theorem lookup_filter_ne (colors : List (String × String)) (tag t : String) (h : t ≠ tag) :
    (colors.filter fun p => !decide (p.1 = tag)).lookup t = colors.lookup t := by
  induction colors with
  | nil => rfl
  | cons p colors ih =>
    obtain ⟨k, v⟩ := p
    by_cases hk : k = tag
    · have htk : (t == k) = false := by simpa [hk] using h
      simp only [List.filter_cons, hk, decide_True, Bool.not_true, Bool.false_eq_true,
        if_false, List.lookup_cons, ih]
      rw [← hk, htk]
    · by_cases htk : t = k
      · simp [List.filter_cons, hk, List.lookup_cons, htk]
      · have hb : (t == k) = false := by simpa using htk
        simp only [List.filter_cons, hk, decide_False, Bool.not_false, if_true,
          List.lookup_cons, hb, ih]

theorem color_SetColor (g : Grapher) (tag c t : String) :
    (g.SetColor tag c).color t = if t = tag then some c else g.color t := by
  by_cases h : t = tag
  · simp [Grapher.SetColor, Grapher.color, List.lookup_cons, h]
  · have hb : (t == tag) = false := by simpa using h
    simp only [Grapher.SetColor, Grapher.color, List.lookup_cons, hb, h, if_false, ne_eq,
      decide_not]
    exact lookup_filter_ne _ _ _ h

/-- C12: after `SetTitle(a); SetTitle(b)` the title is `b` and the Grapher
is otherwise as it was; `SetColor` for two different tags keeps both colors
and leaves every other tag as it was, and `SetColor` twice for one tag leaves
what the second call alone leaves: the last color, held once. -/
theorem options_last_write_wins (g : Grapher) (a b : String) (tag1 c1 tag2 c2 : String)
    (hne : tag1 ≠ tag2) :
    (g.SetTitle a).SetTitle b = { g with title := b } ∧
    ((g.SetColor tag1 c1).SetColor tag2 c2).color tag1 = some c1 ∧
    ((g.SetColor tag1 c1).SetColor tag2 c2).color tag2 = some c2 ∧
    (∀ t, t ≠ tag1 → t ≠ tag2 → ((g.SetColor tag1 c1).SetColor tag2 c2).color t = g.color t) ∧
    (g.SetColor tag1 c1).SetColor tag1 c2 = g.SetColor tag1 c2 ∧
    ((g.SetColor tag1 c1).SetColor tag1 c2).color tag1 = some c2 ∧
    (((g.SetColor tag1 c1).SetColor tag1 c2).colors.filter fun p => p.1 = tag1).length = 1 ∧
    (g.SetColor tag1 c1) = { g with colors := (g.SetColor tag1 c1).colors } := by
  refine ⟨rfl, ?_, ?_, ?_, ?_, ?_, ?_, rfl⟩
  · simp [color_SetColor, hne]
  · simp [color_SetColor]
  · intro t h1 h2
    simp [color_SetColor, h1, h2]
  · simp [Grapher.SetColor, List.filter_cons, List.filter_filter]
  · simp [color_SetColor]
  · simp [Grapher.SetColor, List.filter_cons, List.filter_filter]

/-- Titles `a` then `b`, and the colors of the tags `BACK` and `CANVAS`, on a
new Grapher. -/
theorem options_last_write_wins_witness :
    "BACK" ≠ "CANVAS" ∧
    ((NewGrapher 64).SetTitle "a").SetTitle "b" = { NewGrapher 64 with title := "b" } ∧
    (((NewGrapher 64).SetColor "BACK" "FFFFFF").SetColor "CANVAS" "000000").color "BACK"
      = some "FFFFFF" ∧
    (((NewGrapher 64).SetColor "BACK" "FFFFFF").SetColor "CANVAS" "000000").color "CANVAS"
      = some "000000" :=
  have h := options_last_write_wins (NewGrapher 64) "a" "b" "BACK" "FFFFFF" "CANVAS" "000000"
    (by decide)
  ⟨by decide, h.1, h.2.1, h.2.2.1⟩

theorem minInt_eq (w : Nat) (hw : 0 < w) : minInt w = -(2 : Int) ^ (w - 1) := by
  obtain ⟨k, rfl⟩ : ∃ k, w = k + 1 := ⟨w - 1, by omega⟩
  have hpos : 0 < 2 ^ k := Nat.two_pow_pos k
  have hdiv : (2 ^ (k + 1) - 1) / 2 = 2 ^ k - 1 := by
    rw [pow_succ]
    omega
  have hcast : ((2 ^ k - 1 : Nat) : Int) = (2 : Int) ^ k - 1 := by
    rw [Nat.cast_sub hpos]
    simp
  simp only [minInt, maxInt, maxUint, Nat.shiftRight_eq_div_pow, pow_one, hdiv, hcast,
    Nat.add_sub_cancel]
  ring

/-- C14: on a machine word of `w` bits a new Grapher has its units-exponent
at `minInt = -(maxUint >> 1) - 1` with `maxUint = 2^w - 1`, which is
`-2^(w-1)`, the least signed integer of the word, and its border width at the
constant 2; every boolean option is false and every string option empty. -/
theorem NewGrapher_sentinels (w : Nat) (hw : 0 < w) :
    (NewGrapher w).unitsExponent = -(2 : Int) ^ (w - 1) ∧
    (NewGrapher w).unitsExponent = -(((2 ^ w - 1 : Nat) >>> 1 : Nat) : Int) - 1 ∧
    (∀ i : Int, wrapInt w i = i → (NewGrapher w).unitsExponent ≤ i) ∧
    (NewGrapher w).borderWidth = 2 ∧
    ((NewGrapher w).rigid = false ∧ (NewGrapher w).altAutoscale = false ∧
      (NewGrapher w).altAutoscaleMin = false ∧ (NewGrapher w).altAutoscaleMax = false ∧
      (NewGrapher w).noGridFit = false ∧ (NewGrapher w).logarithmic = false ∧
      (NewGrapher w).noLegend = false ∧ (NewGrapher w).lazy = false ∧
      (NewGrapher w).slopeMode = false ∧ (NewGrapher w).interlaced = false) ∧
    ((NewGrapher w).title = "" ∧ (NewGrapher w).vlabel = "" ∧
      (NewGrapher w).rightAxisLabel = "" ∧ (NewGrapher w).watermark = "" ∧
      (NewGrapher w).imageFormat = "" ∧ (NewGrapher w).daemon = "") := by
  refine ⟨minInt_eq w hw, rfl, ?_, rfl, ⟨rfl, rfl, rfl, rfl, rfl, rfl, rfl, rfl, rfl, rfl⟩,
    ⟨rfl, rfl, rfl, rfl, rfl, rfl⟩⟩
  intro i hi
  have hmin : (NewGrapher w).unitsExponent = -(2 : Int) ^ (w - 1) := minInt_eq w hw
  have hpos : (0 : Int) < 2 ^ w := by positivity
  have hmod := Int.emod_nonneg (i + 2 ^ (w - 1)) (ne_of_gt hpos)
  rw [hmin]
  unfold wrapInt at hi
  omega

/-- The sentinel on words of 64 and of 32 bits. -/
theorem NewGrapher_sentinels_witness :
    (NewGrapher 64).unitsExponent = -9223372036854775808 ∧
    (NewGrapher 32).unitsExponent = -2147483648 ∧
    (NewGrapher 64).borderWidth = 2 :=
  ⟨(NewGrapher_sentinels 64 (by decide)).1, (NewGrapher_sentinels 32 (by decide)).1,
    (NewGrapher_sentinels 64 (by decide)).2.2.2.1⟩

/-- C15 as stated fails: on a new Grapher the upper limit is not positive
infinity and the lower limit is not negative infinity. -/
theorem NewGrapher_limits_not_infinite :
    (NewGrapher 64).upperLimit ≠ math.Inf 1 ∧ (NewGrapher 64).lowerLimit ≠ math.Inf (-1) := by
  decide

/-- C15 amended: a new Grapher has its upper limit at `-math.MaxFloat64`, the
most negative finite `float64`, and its lower limit at `math.MaxFloat64`, the
largest finite one; neither is an infinity and neither is zero, so a limit
that was never set differs from one set to zero. -/
theorem NewGrapher_limits (w : Nat) :
    (NewGrapher w).upperLimit = math.MaxFloat64.neg ∧
    (NewGrapher w).lowerLimit = math.MaxFloat64 ∧
    (NewGrapher w).upperLimit = ⟨0xFFEFFFFFFFFFFFFF⟩ ∧
    (NewGrapher w).lowerLimit = ⟨0x7FEFFFFFFFFFFFFF⟩ ∧
    (∀ sign : Int, (NewGrapher w).upperLimit ≠ math.Inf sign ∧
      (NewGrapher w).lowerLimit ≠ math.Inf sign) ∧
    (NewGrapher w).upperLimit.isZero = false ∧ (NewGrapher w).lowerLimit.isZero = false := by
  have hu : (NewGrapher w).upperLimit = math.MaxFloat64.neg := rfl
  have hl : (NewGrapher w).lowerLimit = math.MaxFloat64 := rfl
  rw [hu, hl]
  refine ⟨rfl, rfl, by decide, by decide, ?_, by decide, by decide⟩
  intro sign
  by_cases h : 0 ≤ sign
  · simp only [math.Inf, h, if_true]
    decide
  · simp only [math.Inf, h, if_false]
    decide

/-- C16: `join` escapes nothing and is not injective: the lists
`["a:b", "c"]` and `["a", "b:c"]` differ and give the same string, and so do
`["a:b"]` and `["a", "b"]`, the one value holding a `:` reading as two
fields. -/
theorem join_not_injective :
    [Value.str "a:b", Value.str "c"] ≠ [Value.str "a", Value.str "b:c"] ∧
    join [Value.str "a:b", Value.str "c"] = join [Value.str "a", Value.str "b:c"] ∧
    [Value.str "a:b"] ≠ [Value.str "a", Value.str "b"] ∧
    join [Value.str "a:b"] = join [Value.str "a", Value.str "b"] ∧
    colons (join [Value.str "a:b"]) = 1 ∧
    ¬ Function.Injective join := by
  refine ⟨by decide, by decide, by decide, by decide, by decide, ?_⟩
  intro hinj
  have h : join [Value.str "a:b"] = join [Value.str "a", Value.str "b"] := by decide
  exact absurd (hinj h) (by decide)

/-- C17: `Def` appends `DEF:` + vname + `=` + file + `:` + ds + `:` + cf,
with nothing after it when no option is given and with `:` and the options
joined by `:` after it when there is at least one. -/
theorem Def_directive (g : Grapher) (vname rrdfile dsname cf o : String)
    (rest : List String) :
    (g.Def vname rrdfile dsname cf []).args
      = g.args ++ ["DEF:" ++ vname ++ "=" ++ rrdfile ++ ":" ++ dsname ++ ":" ++ cf] ∧
    (g.Def vname rrdfile dsname cf (o :: rest)).args
      = g.args ++ ["DEF:" ++ vname ++ "=" ++ rrdfile ++ ":" ++ dsname ++ ":" ++ cf ++ ":"
          ++ strings.Join (o :: rest) ":"] ∧
    (g.Def "a" "db.rrd" "in" "AVERAGE" []).args = g.args ++ ["DEF:a=db.rrd:in:AVERAGE"] ∧
    (g.Def "a" "db.rrd" "in" "AVERAGE" ["step=300", "start=end-1d"]).args
      = g.args ++ ["DEF:a=db.rrd:in:AVERAGE:step=300:start=end-1d"] := by
  refine ⟨rfl, ?_, ?_, ?_⟩
  · simp [Grapher.Def, Grapher.push]
  · simp only [Grapher.Def, Grapher.push]
    congr 2
  · simp only [Grapher.Def, Grapher.push]
    congr 2

/-- C18: `Area` with the empty color appends `AREA:` + value and with a
color that is not empty `AREA:` + value + `#` + color, in both cases followed
by every option preceded by `:`; `Tick` does the same with `TICK:` + vname. -/
theorem Area_Tick_optional_color (g : Grapher) (value vname color : String)
    (options : List String) (hcolor : color ≠ "") :
    (g.Area value "" options).args = g.args ++ ["AREA:" ++ value ++ optionSuffix options] ∧
    (g.Area value color options).args
      = g.args ++ ["AREA:" ++ value ++ "#" ++ color ++ optionSuffix options] ∧
    (g.Tick vname "" options).args = g.args ++ ["TICK:" ++ vname ++ optionSuffix options] ∧
    (g.Tick vname color options).args
      = g.args ++ ["TICK:" ++ vname ++ "#" ++ color ++ optionSuffix options] := by
  refine ⟨?_, ?_, ?_, ?_⟩
  · simp [Grapher.Area, push_suffix]
  · simp [Grapher.Area, push_suffix, hcolor]
  · simp [Grapher.Tick, push_suffix]
  · simp [Grapher.Tick, push_suffix, hcolor]

/-- An area and a tick in the color `00FF00` with one option each. -/
theorem Area_Tick_optional_color_witness :
    ("00FF00" : String) ≠ "" ∧
    ((NewGrapher 64).Area "a" "" ["STACK"]).args = ["AREA:a:STACK"] ∧
    ((NewGrapher 64).Area "a" "00FF00" ["STACK"]).args = ["AREA:a#00FF00:STACK"] ∧
    ((NewGrapher 64).Tick "a" "" ["0.5"]).args = ["TICK:a:0.5"] ∧
    ((NewGrapher 64).Tick "a" "00FF00" ["0.5"]).args = ["TICK:a#00FF00:0.5"] :=
  have h := Area_Tick_optional_color (NewGrapher 64) "a" "a" "00FF00" ["STACK"] (by decide)
  have k := Area_Tick_optional_color (NewGrapher 64) "a" "a" "00FF00" ["0.5"] (by decide)
  ⟨by decide, h.1, h.2.1, k.2.2.1, k.2.2.2⟩

/-- C20: for every sequence of `Def` and `CDef` calls, the directive list a
new Exporter accumulates is the one a new Grapher accumulates from the same
calls. -/
theorem Exporter_Grapher_same_directives (w : Nat) (ops : List SharedOp) :
    (ops.foldl (fun e op => op.onExporter e) NewExporter).args
      = (ops.foldl (fun g op => op.onGrapher g) (NewGrapher w)).args := by
  have step : ∀ (ops : List SharedOp) (e : Exporter) (g : Grapher), e.args = g.args →
      (ops.foldl (fun e op => op.onExporter e) e).args
        = (ops.foldl (fun g op => op.onGrapher g) g).args := by
    intro ops
    induction ops with
    | nil => intro e g h; exact h
    | cons op ops ih =>
      intro e g h
      rw [List.foldl_cons, List.foldl_cons]
      apply ih
      cases op with
      | Def vname rrdfile dsname cf options =>
        simp only [SharedOp.onExporter, SharedOp.onGrapher, Exporter.Def, Grapher.Def,
          Exporter.push, Grapher.push, h]
      | CDef vname rpn =>
        simp only [SharedOp.onExporter, SharedOp.onGrapher, Exporter.CDef, Grapher.CDef,
          Exporter.push, Grapher.push, h]
  exact step ops NewExporter (NewGrapher w) rfl

theorem cell_lt (C R col row : Nat) (hcol : col < C) (hrow : row < R) :
    row * C + col < R * C := by
  have h : (row + 1) * C ≤ R * C := Nat.mul_le_mul_right C hrow
  rw [Nat.add_mul, Nat.one_mul] at h
  omega

theorem cell_index (w C : Nat) (hw : 0 < w) (values : List Float64) (R col row : Nat)
    (hlen : values.length = R * C) (hfit : R * C < 2 ^ (w - 1))
    (hcol : col < C) (hrow : row < R) :
    wrapInt w (wrapInt w ((C : Int) * row) + col) = ((row * C + col : Nat) : Int) ∧
    index values (wrapInt w (wrapInt w ((C : Int) * row) + col)) = values[row * C + col]? ∧
    (index values (wrapInt w (wrapInt w ((C : Int) * row) + col))).isSome = true := by
  have hlt := cell_lt C R col row hcol hrow
  have hcast : (C : Int) * row + col = ((row * C + col : Nat) : Int) := by
    push_cast
    ring
  have h0 : (0 : Int) ≤ (C : Int) * row + col := by
    rw [hcast]
    exact Int.ofNat_nonneg _
  have h1 : (C : Int) * row + col < 2 ^ (w - 1) := by
    rw [hcast]
    have : row * C + col < 2 ^ (w - 1) := lt_trans hlt hfit
    exact_mod_cast this
  have hidx := index_row_major w hw values C col row h0 h1
  have hwrap : wrapInt w (wrapInt w ((C : Int) * row) + col) = ((row * C + col : Nat) : Int) := by
    rw [wrapInt_add w hw, wrapInt_of_mem w hw _ h0 h1, hcast]
  refine ⟨hwrap, ?_, ?_⟩
  · rw [hidx, hcast, Int.toNat_ofNat]
  · rw [hidx, hcast, Int.toNat_ofNat, List.getElem?_eq_getElem (by omega)]
    rfl

/-- C19: on a result of `C ≥ 1` columns and `R` rows whose value buffer has
length `R*C` (a length that fits the machine `int`, as every Go slice's
does), the index `ValueAt(col, row)` uses is `row*C + col` and lies in
the buffer for every `col < C` and `row < R`, so `ValueAt` returns that
element; no two such cells share an index and every index below `R*C` is the
index of such a cell. -/
theorem ValueAt_cells_bijective (w C R : Nat) (r : FetchResult) (x : XportResult)
    (hw : 0 < w) (hC : 1 ≤ C) (hfit : R * C < 2 ^ (w - 1))
    (hrC : r.DsNames.length = C) (hrv : r.values.length = R * C)
    (hxC : x.Legends.length = C) (hxv : x.values.length = R * C) :
    (∀ col row : Nat, col < C → row < R →
      row * C + col < R * C ∧
      wrapInt w (wrapInt w ((C : Int) * row) + col) = ((row * C + col : Nat) : Int) ∧
      r.ValueAt w col row = r.values[row * C + col]? ∧ (r.ValueAt w col row).isSome = true ∧
      x.ValueAt w col row = x.values[row * C + col]? ∧ (x.ValueAt w col row).isSome = true) ∧
    (∀ col1 row1 col2 row2 : Nat, col1 < C → col2 < C →
      row1 * C + col1 = row2 * C + col2 → col1 = col2 ∧ row1 = row2) ∧
    (∀ i : Nat, i < R * C → ∃ col row : Nat, col < C ∧ row < R ∧ row * C + col = i) := by
  have hCpos : 0 < C := hC
  refine ⟨?_, ?_, ?_⟩
  · intro col row hcol hrow
    have hr := cell_index w C hw r.values R col row hrv hfit hcol hrow
    have hx := cell_index w C hw x.values R col row hxv hfit hcol hrow
    refine ⟨cell_lt C R col row hcol hrow, hr.1, ?_, ?_, ?_, ?_⟩
    · simpa [FetchResult.ValueAt, hrC] using hr.2.1
    · simpa [FetchResult.ValueAt, hrC] using hr.2.2
    · simpa [XportResult.ValueAt, hxC] using hx.2.1
    · simpa [XportResult.ValueAt, hxC] using hx.2.2
  · intro col1 row1 col2 row2 h1 h2 heq
    have hm : (row1 * C + col1) % C = (row2 * C + col2) % C := by rw [heq]
    have hd : (row1 * C + col1) / C = (row2 * C + col2) / C := by rw [heq]
    rw [Nat.add_comm (row1 * C), Nat.add_comm (row2 * C), Nat.add_mul_mod_self_right,
      Nat.add_mul_mod_self_right, Nat.mod_eq_of_lt h1, Nat.mod_eq_of_lt h2] at hm
    rw [Nat.add_comm (row1 * C), Nat.add_comm (row2 * C), Nat.add_mul_div_right _ _ hCpos,
      Nat.add_mul_div_right _ _ hCpos, Nat.div_eq_of_lt h1, Nat.div_eq_of_lt h2] at hd
    exact ⟨hm, by omega⟩
  · intro i hi
    refine ⟨i % C, i / C, Nat.mod_lt _ hCpos, ?_, ?_⟩
    · exact Nat.div_lt_of_lt_mul (by rwa [Nat.mul_comm] at hi)
    · rw [Nat.mul_comm]
      exact Nat.div_add_mod i C

/-- The examples of 2 columns and 3 rows on a 64-bit word: the last cell,
column 1 of row 2, is the last element of the buffer. -/
theorem ValueAt_cells_bijective_witness :
    (1 : Nat) ≤ 2 ∧ exFetch.values.length = 3 * 2 ∧ exXport.values.length = 3 * 2 ∧
    exFetch.ValueAt 64 (1 : Nat) (2 : Nat) = exFetch.values[2 * 2 + 1]? ∧
    exXport.ValueAt 64 (1 : Nat) (2 : Nat) = exXport.values[2 * 2 + 1]? :=
  have h := (ValueAt_cells_bijective 64 2 3 exFetch exXport (by decide) (by decide)
    (by decide) rfl rfl rfl rfl).1 1 2 (by decide) (by decide)
  ⟨by decide, rfl, rfl, h.2.2.1, h.2.2.2.2.1⟩

theorem freesAt_new (s : String) (w : World) (a : Nat) :
    freesAt (newCstring s w).2 a = freesAt w a := by
  simp only [freesAt, newCstring]
  rcases Nat.lt_trichotomy a w.heap.length with h | h | h
  · rw [List.getElem?_append_left h]
  · subst h
    simp
  · rw [List.getElem?_eq_none (by simp; omega), List.getElem?_eq_none (by omega)]

theorem freesAt_Free (w : World) (a b : Nat) (ha : a < w.heap.length) :
    freesAt (cstring.Free (some a) w) b = if b = a then freesAt w b + 1 else freesAt w b := by
  simp only [freesAt, cstring.Free, List.getElem?_modify]
  by_cases h : b = a
  · subst h
    simp [List.getElem?_eq_getElem ha]
  · have h' : ¬ a = b := fun e => h e.symm
    simp only [h, h', if_false]
    cases w.heap[b]? <;> rfl

theorem length_Free (w : World) (cs : CString) :
    (cstring.Free cs w).heap.length = w.heap.length := by
  cases cs with
  | none => rfl
  | some a => simp [cstring.Free]

theorem isLive_iff (w : World) (cs : CString) :
    isLive w cs = true ↔ ∃ a, cs = some a ∧ a < w.heap.length ∧ freesAt w a = 0 := by
  cases cs with
  | none => simp [isLive]
  | some a => simp [isLive]

theorem foldl_Free (args : List CString) :
    ∀ w : World, (∀ cs ∈ args, isLive w cs = true) → args.Nodup →
      (args.foldl (fun w c => cstring.Free c w) w).heap.length = w.heap.length ∧
      ∀ b, freesAt (args.foldl (fun w c => cstring.Free c w) w) b
        = if some b ∈ args then freesAt w b + 1 else freesAt w b := by
  induction args with
  | nil => intro w _ _; simp
  | cons c rest ih =>
    intro w hlive hnd
    obtain ⟨a, rfl, ha, hfa⟩ := (isLive_iff w c).mp (hlive c (by simp))
    have hnotin : some a ∉ rest := (List.nodup_cons.mp hnd).1
    have hrest : ∀ cs ∈ rest, isLive (cstring.Free (some a) w) cs = true := by
      intro cs hcs
      obtain ⟨b, rfl, hb, hfb⟩ := (isLive_iff w cs).mp (hlive cs (List.mem_cons_of_mem _ hcs))
      have hba : b ≠ a := fun e => hnotin (e ▸ hcs)
      refine (isLive_iff _ _).mpr ⟨b, rfl, by rw [length_Free]; exact hb, ?_⟩
      rw [freesAt_Free w a b ha, if_neg hba, hfb]
    obtain ⟨hlen, hfr⟩ := ih (cstring.Free (some a) w) hrest (List.nodup_cons.mp hnd).2
    rw [List.foldl_cons]
    refine ⟨by rw [hlen, length_Free], ?_⟩
    intro b
    rw [hfr b, freesAt_Free w a b ha]
    by_cases hb : some b ∈ rest
    · have hba : b ≠ a := fun e => hnotin (e ▸ hb)
      simp [hb, hba]
    · by_cases hba : b = a
      · subst hba
        simp [hb]
      · have : ¬ (some b = some a) := fun e => hba (Option.some.inj e)
        simp [hb, hba, this]

theorem freesAt_outside (w : World) (b : Nat) (h : w.heap.length ≤ b) : freesAt w b = 0 := by
  simp [freesAt, List.getElem?_eq_none h]

theorem SetTemplate_effect (u : Updater) (w : World) (d : List String) (h : BuffersOk u w) :
    (u.SetTemplate d w).1 = { u with template := some w.heap.length } ∧
    (u.SetTemplate d w).2.heap.length = w.heap.length + 1 ∧
    ∀ b, freesAt (u.SetTemplate d w).2 b = if u.template = some b then 1 else freesAt w b := by
  refine ⟨?_, ?_, ?_⟩
  · simp [Updater.SetTemplate, newCstring, length_Free]
  · simp [Updater.SetTemplate, newCstring, length_Free]
  · intro b
    simp only [Updater.SetTemplate, freesAt_new]
    rcases h.template with hnone | hlive
    · simp [hnone, cstring.Free]
    · obtain ⟨t, ht, hlt, hft⟩ := (isLive_iff w u.template).mp hlive
      rw [ht, freesAt_Free w t b hlt]
      by_cases hb : b = t
      · subst hb
        simp [hft]
      · have : ¬ (some t = some b) := fun e => hb (Option.some.inj e).symm
        simp [hb, this]

theorem Cache_effect (u : Updater) (w : World) (x : List Value) :
    (u.Cache x w).1 = { u with args := u.args ++ [some w.heap.length] } ∧
    (u.Cache x w).2.heap.length = w.heap.length + 1 ∧
    ∀ b, freesAt (u.Cache x w).2 b = freesAt w b := by
  refine ⟨rfl, by simp [Updater.Cache, newCstring], fun b => ?_⟩
  simp only [Updater.Cache, freesAt_new]

theorem Update_now_effect (E : Engine) (u : Updater) (w : World) (x : List Value)
    (hx : x ≠ []) :
    (u.Update E x w).2.1 = u ∧
    (u.Update E x w).2.2.heap.length = w.heap.length + 1 ∧
    ∀ b, freesAt (u.Update E x w).2.2 b = if b = w.heap.length then 1 else freesAt w b := by
  have hlen : x.length ≠ 0 := fun h => hx (List.length_eq_zero.mp h)
  have hheap : (u.Update E x w).2.2.heap = w.heap ++ [{ text := join x, frees := 1 }] := by
    simp [Updater.Update, Updater.update, newCstring, hlen, cstring.Free, modify_length_append]
  refine ⟨by simp [Updater.Update, hlen], by rw [hheap]; simp, fun b => ?_⟩
  simp only [freesAt, hheap]
  rcases Nat.lt_trichotomy b w.heap.length with h | h | h
  · rw [List.getElem?_append_left h, if_neg (by omega)]
  · subst h
    simp
  · rw [List.getElem?_eq_none (by simp; omega), List.getElem?_eq_none (by omega),
      if_neg (by omega)]

theorem Update_flush_effect (E : Engine) (u : Updater) (w : World) (h : BuffersOk u w) :
    (u.Update E [] w).2.1 = { u with args := [] } ∧
    (u.Update E [] w).2.2.heap.length = w.heap.length ∧
    ∀ b, freesAt (u.Update E [] w).2.2 b = if some b ∈ u.args then 1 else freesAt w b := by
  by_cases hargs : u.args = []
  · have h0 : u.args.length = 0 := by simp [hargs]
    refine ⟨?_, ?_, ?_⟩
    · simp [Updater.Update, h0, ← hargs]
    · simp [Updater.Update, h0]
    · intro b
      simp [Updater.Update, h0, hargs]
  · have hlen : u.args.length ≠ 0 := fun e => hargs (List.length_eq_zero.mp e)
    have hw1 : ∀ cs ∈ u.args, isLive (u.update E u.args w).2 cs = true := by
      intro cs hcs
      exact h.args cs hcs
    obtain ⟨hl, hf⟩ := foldl_Free u.args (u.update E u.args w).2 hw1 h.nodup
    refine ⟨?_, ?_, ?_⟩
    · simp [Updater.Update, hlen]
    · simp only [Updater.Update, List.length_nil, ne_eq, not_true_eq_false, if_false, hlen,
        not_false_eq_true, if_true]
      rw [hl]
      rfl
    · intro b
      simp only [Updater.Update, List.length_nil, ne_eq, not_true_eq_false, if_false, hlen,
        not_false_eq_true, if_true]
      rw [hf b]
      by_cases hb : some b ∈ u.args
      · obtain ⟨a, ha, _, hfa⟩ := (isLive_iff w (some b)).mp (h.args _ hb)
        obtain rfl := Option.some.inj ha
        have : freesAt (u.update E u.args w).2 b = 0 := hfa
        simp [hb, this]
      · simp only [hb, if_false]
        rfl

theorem isLive_keep (w w1 : World) (cs : CString) (hlive : isLive w cs = true)
    (hlen : w.heap.length ≤ w1.heap.length)
    (hsame : ∀ a, cs = some a → freesAt w1 a = freesAt w a) : isLive w1 cs = true := by
  obtain ⟨a, rfl, ha, hfa⟩ := (isLive_iff w cs).mp hlive
  exact (isLive_iff _ _).mpr ⟨a, rfl, lt_of_lt_of_le ha hlen, by rw [hsame a rfl, hfa]⟩

theorem isLive_lt (w : World) (a : Nat) (h : isLive w (some a) = true) :
    a < w.heap.length := by
  obtain ⟨b, hb, hlt, _⟩ := (isLive_iff w (some a)).mp h
  obtain rfl := Option.some.inj hb
  exact hlt

theorem fresh_not_mem (u : Updater) (w : World) (h : BuffersOk u w) :
    some w.heap.length ∉ u.args ∧ u.filename ≠ some w.heap.length ∧
    u.template ≠ some w.heap.length := by
  refine ⟨?_, ?_, ?_⟩
  · intro hmem
    exact absurd (isLive_lt w _ (h.args _ hmem)) (lt_irrefl _)
  · intro he
    have := h.filename
    rw [he] at this
    exact absurd (isLive_lt w _ this) (lt_irrefl _)
  · intro he
    rcases h.template with hn | hl
    · rw [hn] at he
      exact absurd he (by simp)
    · rw [he] at hl
      exact absurd (isLive_lt w _ hl) (lt_irrefl _)

theorem BuffersOk_SetTemplate (u : Updater) (w : World) (d : List String)
    (h : BuffersOk u w) : BuffersOk (u.SetTemplate d w).1 (u.SetTemplate d w).2 := by
  obtain ⟨hu, hlen, hfr⟩ := SetTemplate_effect u w d h
  obtain ⟨hf1, hf2, hf3⟩ := fresh_not_mem u w h
  rw [hu]
  refine ⟨?_, ?_, ?_, h.nodup, h.filename_args, hf1, fun e => hf2 e.symm, ?_⟩
  · refine isLive_keep w _ _ h.filename (by omega) (fun a ha => ?_)
    rw [hfr a, if_neg]
    intro e
    exact h.template_filename (e.trans ha.symm)
  · right
    refine (isLive_iff _ _).mpr ⟨w.heap.length, rfl, by omega, ?_⟩
    rw [hfr, if_neg hf3]
    exact freesAt_outside w _ (le_refl _)
  · intro cs hcs
    refine isLive_keep w _ _ (h.args cs hcs) (by omega) (fun a ha => ?_)
    rw [hfr a, if_neg]
    intro e
    exact h.template_args (e ▸ ha ▸ hcs)
  · intro b
    rw [hfr b]
    split
    · exact le_refl _
    · exact h.once b

theorem BuffersOk_Cache (u : Updater) (w : World) (x : List Value) (h : BuffersOk u w) :
    BuffersOk (u.Cache x w).1 (u.Cache x w).2 := by
  obtain ⟨hu, hlen, hfr⟩ := Cache_effect u w x
  obtain ⟨hf1, hf2, hf3⟩ := fresh_not_mem u w h
  rw [hu]
  refine ⟨?_, ?_, ?_, ?_, ?_, ?_, h.template_filename, ?_⟩
  · exact isLive_keep w _ _ h.filename (by omega) (fun a _ => hfr a)
  · rcases h.template with hn | hl
    · exact Or.inl hn
    · exact Or.inr (isLive_keep w _ _ hl (by omega) (fun a _ => hfr a))
  · intro cs hcs
    rcases List.mem_append.mp hcs with hold | hnew
    · exact isLive_keep w _ _ (h.args cs hold) (by omega) (fun a _ => hfr a)
    · obtain rfl := List.mem_singleton.mp hnew
      refine (isLive_iff _ _).mpr ⟨w.heap.length, rfl, by omega, ?_⟩
      rw [hfr]
      exact freesAt_outside w _ (le_refl _)
  · refine List.Nodup.append h.nodup (List.nodup_singleton _) ?_
    intro cs hcs hnew
    obtain rfl := List.mem_singleton.mp hnew
    exact hf1 hcs
  · intro hmem
    rcases List.mem_append.mp hmem with hold | hnew
    · exact h.filename_args hold
    · exact hf2 (List.mem_singleton.mp hnew)
  · intro hmem
    rcases List.mem_append.mp hmem with hold | hnew
    · exact h.template_args hold
    · exact hf3 (List.mem_singleton.mp hnew)
  · intro b
    rw [hfr b]
    exact h.once b

theorem BuffersOk_Update (E : Engine) (u : Updater) (w : World) (x : List Value)
    (h : BuffersOk u w) : BuffersOk (u.Update E x w).2.1 (u.Update E x w).2.2 := by
  obtain ⟨hf1, hf2, hf3⟩ := fresh_not_mem u w h
  by_cases hx : x = []
  · subst hx
    obtain ⟨hu, hlen, hfr⟩ := Update_flush_effect E u w h
    rw [hu]
    refine ⟨?_, ?_, ?_, List.nodup_nil, List.not_mem_nil _, List.not_mem_nil _,
      h.template_filename, ?_⟩
    · refine isLive_keep w _ _ h.filename (by omega) (fun a ha => ?_)
      rw [hfr a, if_neg]
      intro hmem
      exact h.filename_args (ha ▸ hmem)
    · rcases h.template with hn | hl
      · exact Or.inl hn
      · refine Or.inr (isLive_keep w _ _ hl (by omega) (fun a ha => ?_))
        rw [hfr a, if_neg]
        intro hmem
        exact h.template_args (ha ▸ hmem)
    · intro cs hcs
      exact absurd hcs (List.not_mem_nil _)
    · intro b
      rw [hfr b]
      split
      · exact le_refl _
      · exact h.once b
  · obtain ⟨hu, hlen, hfr⟩ := Update_now_effect E u w x hx
    rw [hu]
    have keep : ∀ cs, isLive w cs = true → isLive (u.Update E x w).2.2 cs = true := by
      intro cs hcs
      refine isLive_keep w _ _ hcs (by omega) (fun a ha => ?_)
      rw [hfr a, if_neg]
      intro e
      rw [ha, e] at hcs
      exact absurd (isLive_lt w _ hcs) (lt_irrefl _)
    refine ⟨keep _ h.filename, ?_, fun cs hcs => keep cs (h.args cs hcs), h.nodup,
      h.filename_args, h.template_args, h.template_filename, ?_⟩
    · rcases h.template with hn | hl
      · exact Or.inl hn
      · exact Or.inr (keep _ hl)
    · intro b
      rw [hfr b]
      split
      · exact le_refl _
      · exact h.once b

theorem BuffersOk_New (filename : String) (w : World) (hw : ∀ a, freesAt w a ≤ 1) :
    BuffersOk (NewUpdater filename w).1 (NewUpdater filename w).2 := by
  have hu : (NewUpdater filename w).1 = { filename := some w.heap.length } := rfl
  have hfr : ∀ b, freesAt (NewUpdater filename w).2 b = freesAt w b :=
    fun b => freesAt_new filename w b
  have hlen : (NewUpdater filename w).2.heap.length = w.heap.length + 1 := by
    simp [NewUpdater, newCstring]
  rw [hu]
  refine ⟨?_, Or.inl rfl, fun cs hcs => absurd hcs (List.not_mem_nil _), List.nodup_nil,
    List.not_mem_nil _, List.not_mem_nil _, by simp, ?_⟩
  · refine (isLive_iff _ _).mpr ⟨w.heap.length, rfl, by omega, ?_⟩
    rw [hfr]
    exact freesAt_outside w _ (le_refl _)
  · intro b
    rw [hfr b]
    exact hw b

theorem BuffersOk_run (E : Engine) (ops : List UpdaterOp) :
    ∀ s : Updater × World, BuffersOk s.1 s.2 →
      BuffersOk (ops.foldl (fun s op => op.run E s) s).1
        (ops.foldl (fun s op => op.run E s) s).2 := by
  induction ops with
  | nil => intro s h; exact h
  | cons op ops ih =>
    intro s h
    rw [List.foldl_cons]
    apply ih
    cases op with
    | SetTemplate d => exact BuffersOk_SetTemplate s.1 s.2 d h
    | Cache x => exact BuffersOk_Cache s.1 s.2 x h
    | Update x => exact BuffersOk_Update E s.1 s.2 x h

/-- C13: from a world in which no buffer has been released twice, after
`NewUpdater` and every sequence of `SetTemplate`, `Cache`, `Update(args...)`
and `Update()` the buffers the Updater references (filename, template,
pending samples) are live, none is referenced twice, and no buffer has been
released more than once; from such a state `SetTemplate` releases the
template it held, once, and nothing when it held none, `Update(args...)`
releases its temporary buffer, the one newly allocated, once, and `Update()`
releases each pending buffer once, whatever the engine answers. -/
theorem updater_buffers_released_once (E : Engine) (filename : String)
    (ops : List UpdaterOp) (w0 : World) (hw0 : ∀ a, freesAt w0 a ≤ 1) :
    BuffersOk (runUpdater E filename ops w0).1 (runUpdater E filename ops w0).2 ∧
    (∀ (d : List String) (b : Nat),
      freesAt ((runUpdater E filename ops w0).1.SetTemplate d (runUpdater E filename ops w0).2).2 b
        = if (runUpdater E filename ops w0).1.template = some b then 1
          else freesAt (runUpdater E filename ops w0).2 b) ∧
    (∀ (x : List Value) (b : Nat), x ≠ [] →
      freesAt ((runUpdater E filename ops w0).1.Update E x (runUpdater E filename ops w0).2).2.2 b
        = if b = (runUpdater E filename ops w0).2.heap.length then 1
          else freesAt (runUpdater E filename ops w0).2 b) ∧
    (∀ b : Nat,
      freesAt ((runUpdater E filename ops w0).1.Update E [] (runUpdater E filename ops w0).2).2.2 b
        = if some b ∈ (runUpdater E filename ops w0).1.args then 1
          else freesAt (runUpdater E filename ops w0).2 b) := by
  have hok : BuffersOk (runUpdater E filename ops w0).1 (runUpdater E filename ops w0).2 :=
    BuffersOk_run E ops _ (BuffersOk_New filename w0 hw0)
  exact ⟨hok, fun d b => (SetTemplate_effect _ _ d hok).2.2 b,
    fun x b hx => (Update_now_effect E _ _ x hx).2.2 b,
    fun b => (Update_flush_effect E _ _ hok).2.2 b⟩

/-- A sample cached, the template set twice, a sample written at once and a
flush, all through the rejecting engine: the first template, the temporary
buffer and the cached sample have each been released once. -/
theorem updater_buffers_released_once_witness :
    (∀ a, freesAt exWorld a ≤ 1) ∧
    BuffersOk
      (runUpdater exEngineFail "db.rrd"
        [UpdaterOp.Cache [Value.int 1], UpdaterOp.SetTemplate ["in"],
          UpdaterOp.SetTemplate ["in", "out"], UpdaterOp.Update [Value.int 2],
          UpdaterOp.Update []] exWorld).1
      (runUpdater exEngineFail "db.rrd"
        [UpdaterOp.Cache [Value.int 1], UpdaterOp.SetTemplate ["in"],
          UpdaterOp.SetTemplate ["in", "out"], UpdaterOp.Update [Value.int 2],
          UpdaterOp.Update []] exWorld).2 ∧
    (runUpdater exEngineFail "db.rrd"
        [UpdaterOp.Cache [Value.int 1], UpdaterOp.SetTemplate ["in"],
          UpdaterOp.SetTemplate ["in", "out"], UpdaterOp.Update [Value.int 2],
          UpdaterOp.Update []] exWorld).2.heap
      = [⟨"db.rrd", 0⟩, ⟨"db.rrd", 0⟩, ⟨"1", 1⟩, ⟨"in", 1⟩, ⟨"in:out", 0⟩, ⟨"2", 1⟩] :=
  have hw0 : ∀ a, freesAt exWorld a ≤ 1 := by
    intro a
    cases a with
    | zero => decide
    | succ n => simp [freesAt, exWorld]
  ⟨hw0, (updater_buffers_released_once exEngineFail "db.rrd"
      [UpdaterOp.Cache [Value.int 1], UpdaterOp.SetTemplate ["in"],
        UpdaterOp.SetTemplate ["in", "out"], UpdaterOp.Update [Value.int 2],
        UpdaterOp.Update []] exWorld hw0).1, by decide⟩

end Rrd
